import Mathlib

/-!
Verification of the Stremio Malayalam-catalog addon (`src/app.py`).

The program is a Flask app whose core is `fetch_and_cache_movies`: it pages
through a TMDB "discover" endpoint (pages 1..300), enriches each candidate
movie with a watch-providers lookup and an external-identifiers lookup,
filters, deduplicates by IMDb id and installs the result into a global cache;
`to_stremio_meta` / `catalog` project the cache into the Stremio catalog
response.

The network is modelled as an oracle: each page request yields either an
error (`PageResp.err`, standing for a raised `requests` exception or a JSON
decoding failure) or a list of candidates, and each candidate carries the
responses its two enrichment lookups would produce.  Python exceptions enter
the model as `err` values and are consumed exactly at the positions of the
`try/except` handlers of the source; JSON dictionary fields accessed with
`.get` are `Option`-valued, with Python truthiness made explicit
(`none`/`0`/`""` are falsy).
-/

set_option autoImplicit false

namespace StremMal

/-- A raw movie record as the code reads it from JSON: each field the code
accesses via `movie.get(...)` / `movie[...]`, `none` meaning absent or null. -/
structure MovieRec where
  id : Option Int
  title : Option String
  overview : Option String
  release_date : Option String
  poster_path : Option String
  backdrop_path : Option String
  imdb_id : Option String
  deriving DecidableEq, Repr

/-- Result of one enrichment HTTP request: `err` stands for any raised
exception (timeout, connection error, JSON failure), `ok` for a decoded body. -/
inductive RResp (α : Type) where
  | err : RResp α
  | ok : α → RResp α
  deriving DecidableEq, Repr

/-- One regional entry of a watch-providers response: whether each of the
three keys `"flatrate"`, `"buy"`, `"rent"` is present in the JSON object. -/
structure ProvEntry where
  flatrate : Bool
  buy : Bool
  rent : Bool
  deriving DecidableEq, Repr

/-- A decoded watch-providers response body: `results` is the optional
`"results"` key, a JSON object mapping region codes to regional entries,
modelled as an association list. -/
structure ProvData where
  results : Option (List (String × ProvEntry))
  deriving DecidableEq, Repr

/-- A decoded external-ids response body: the optional `"imdb_id"` field. -/
structure ExtData where
  imdb_id : Option String
  deriving DecidableEq, Repr

/-- A candidate from a discover page together with the oracle's responses to
the two enrichment lookups the code may issue for it. -/
structure Candidate where
  movie : MovieRec
  provResp : RResp ProvData
  extResp : RResp ExtData
  deriving DecidableEq, Repr

/-- Response of one discover-page request: `err` stands for
`requests.Timeout` or any other exception raised while fetching/decoding the
page, `ok` for the decoded `"results"` list. -/
inductive PageResp where
  | err : PageResp
  | ok : List Candidate → PageResp
  deriving DecidableEq, Repr

/-- Python truthiness of an optional numeric field: `None` and `0` are falsy. -/
def truthyInt : Option Int → Bool
  | none => false
  | some n => n != 0

/-- Python truthiness of an optional string field: `None` and `""` are falsy. -/
def truthyStr : Option String → Bool
  | none => false
  | some s => s != ""

/-- Python's `str.startswith`: `pre` is a prefix of `s` (structural on the
character lists, so that concrete runs evaluate). -/
def strStartsWith (s pre : String) : Bool :=
  List.isPrefixOf pre.data s.data

/-- The enrichment HTTP requests `fetch_and_cache_movies` can issue for one
candidate, in program order. -/
inductive Lookup where
  | providers : Lookup
  | externalIds : Lookup
  deriving DecidableEq, Repr

/-- The per-candidate body of the page loop of `fetch_and_cache_movies`
(src/app.py lines 59-106): skip candidates with falsy `id` or `title`; issue
the watch-providers lookup, skipping the candidate on error, on a missing
`"results"` key, on a missing `"IN"` region, or when none of
`flatrate`/`buy`/`rent` is present; then issue the external-ids lookup and
append the movie (with `imdb_id` attached) when it yields a truthy id
starting with `"tt"`, skipping the candidate on error or a bad id.
Returns the lookups issued and the updated accumulator `final_movies`. -/
def processCandidate (acc : List MovieRec) (c : Candidate) :
    List Lookup × List MovieRec :=
  if !(truthyInt c.movie.id) || !(truthyStr c.movie.title) then
    ([], acc)
  else
    match c.provResp with
    | .err => ([.providers], acc)
    | .ok pd =>
      match pd.results with
      | none => ([.providers], acc)
      | some regions =>
        match regions.lookup "IN" with
        | none => ([.providers], acc)
        | some ip =>
          if !(ip.flatrate || ip.buy || ip.rent) then
            ([.providers], acc)
          else
            match c.extResp with
            | .err => ([.providers, .externalIds], acc)
            | .ok ext =>
              match ext.imdb_id with
              | none => ([.providers, .externalIds], acc)
              | some iid =>
                if iid != "" && strStartsWith iid "tt" then
                  ([.providers, .externalIds],
                    acc ++ [{ c.movie with imdb_id := some iid }])
                else
                  ([.providers, .externalIds], acc)

/-- The `for movie in results` loop over one page's candidates: threads the
accumulator through `processCandidate` and collects the issued lookups. -/
def processPage (acc : List MovieRec) : List Candidate → List Lookup × List MovieRec
  | [] => ([], acc)
  | c :: cs =>
    let r := processCandidate acc c
    let rest := processPage r.2 cs
    (r.1 ++ rest.1, rest.2)

/-- The pagination loop of `fetch_and_cache_movies` (src/app.py lines
27-115), with the environment `env` giving the response of each discover-page
request.  `fuel` is the number of remaining iterations of
`range(1, 301)` and `page` the current page number.  A page error breaks the
loop (the `except` clauses), as does an empty results list.  Returns the list
of page numbers actually requested and the accumulated `final_movies`. -/
def fetchT (env : Nat → PageResp) : Nat → Nat → List MovieRec →
    List Nat × List MovieRec
  | _, 0, acc => ([], acc)
  | page, fuel + 1, acc =>
    match env page with
    | .err => ([page], acc)
    | .ok [] => ([page], acc)
    | .ok (c :: cs) =>
      let step := processPage acc (c :: cs)
      let rest := fetchT env (page + 1) fuel step.2
      (page :: rest.1, rest.2)

/-- The discover-page numbers requested during one refresh run. -/
def queried_pages (env : Nat → PageResp) : List Nat :=
  (fetchT env 1 300 []).1

/-- The deduplication loop of `fetch_and_cache_movies` (src/app.py lines
117-124): keep a movie when its `imdb_id` is truthy and not yet in
`seen_ids`. -/
def dedupAux (seen : List String) : List MovieRec → List MovieRec
  | [] => []
  | m :: rest =>
    match m.imdb_id with
    | none => dedupAux seen rest
    | some iid =>
      if iid != "" && !(seen.contains iid) then
        m :: dedupAux (iid :: seen) rest
      else
        dedupAux seen rest

/-- Deduplicate `final_movies` by `imdb_id`, first occurrence kept. -/
def dedup (ms : List MovieRec) : List MovieRec :=
  dedupAux [] ms

/-- One full refresh run of `fetch_and_cache_movies` under environment `env`:
the value installed into `all_movies_cache`. -/
def fetch_and_cache_movies (env : Nat → PageResp) : List MovieRec :=
  dedup ((fetchT env 1 300 []).2)

/-- A Stremio catalog entry as built by `to_stremio_meta`. -/
@[ext]
structure StremioMeta where
  id : String
  type : String
  name : String
  poster : Option String
  description : String
  releaseInfo : String
  background : Option String
  deriving DecidableEq, Repr

/-- `to_stremio_meta` (src/app.py lines 131-149): `None` when `imdb_id` or
`title` is falsy, otherwise the catalog entry; poster/background URLs are
built from the image base and the raw path when the path field is truthy. -/
def to_stremio_meta (m : MovieRec) : Option StremioMeta :=
  match m.imdb_id, m.title with
  | some iid, some t =>
    if iid = "" || t = "" then none
    else some
      { id := iid
        type := "movie"
        name := t
        poster :=
          match m.poster_path with
          | some p => if p != "" then some ("https://image.tmdb.org/t/p/w500" ++ p) else none
          | none => none
        description := m.overview.getD ""
        releaseInfo := m.release_date.getD ""
        background :=
          match m.backdrop_path with
          | some p => if p != "" then some ("https://image.tmdb.org/t/p/w780" ++ p) else none
          | none => none }
  | _, _ => none

/-- The body of the catalog endpoint's JSON response. -/
structure CatalogResponse where
  metas : List StremioMeta
  deriving DecidableEq, Repr

/-- The catalog endpoint (src/app.py lines 170-180) applied to the current
cache: the list comprehension keeps exactly the non-`None` projections, in
cache order. -/
def catalog (cache : List MovieRec) : CatalogResponse :=
  { metas := cache.filterMap to_stremio_meta }

/-! ### Statement-side helpers -/

/-- A page response on which the pagination loop continues: a decoded,
non-empty results list. -/
def isGoodPage : PageResp → Bool
  | .ok (_ :: _) => true
  | _ => false

/-- A page response on which the pagination loop breaks: an error or an empty
results list. -/
def stopsPage : PageResp → Bool
  | .err => true
  | .ok [] => true
  | .ok (_ :: _) => false

/-- The candidate list carried by a page response (empty for an error). -/
def candsOf : PageResp → List Candidate
  | .err => []
  | .ok cs => cs

/-- One pagination step on the accumulator: process the candidates of page
`p`. -/
def pageStep (env : Nat → PageResp) (acc : List MovieRec) (p : Nat) : List MovieRec :=
  (processPage acc (candsOf (env p))).2

/-- The accumulator `final_movies` after processing pages `1..n` in order. -/
def accumPages (env : Nat → PageResp) (n : Nat) : List MovieRec :=
  (List.range' 1 n).foldl (pageStep env) []

/-- An accumulated movie as appended by `fetch_and_cache_movies`: a truthy
IMDb id with the `"tt"` prefix and a truthy title. -/
def acceptedMovie (m : MovieRec) : Prop :=
  (∃ s, m.imdb_id = some s ∧ s ≠ "" ∧ strStartsWith s "tt" = true) ∧
    ∃ t, m.title = some t ∧ t ≠ ""

instance (m : MovieRec) : Decidable (acceptedMovie m) := by
  unfold acceptedMovie
  cases m.imdb_id with
  | none => exact .isFalse (by simp)
  | some s =>
    cases m.title with
    | none => exact .isFalse (by simp)
    | some t =>
      refine decidable_of_iff (s ≠ "" ∧ strStartsWith s "tt" = true ∧ t ≠ "") ?_
      constructor
      · rintro ⟨h1, h2, h3⟩
        exact ⟨⟨s, rfl, h1, h2⟩, ⟨t, rfl, h3⟩⟩
      · rintro ⟨⟨s', hs, h1, h2⟩, ⟨t', ht, h3⟩⟩
        cases hs; cases ht; exact ⟨h1, h2, h3⟩

/-- The watch-providers outcome that makes the code skip the candidate: a
lookup error, a missing `"results"` key, no `"IN"` region, or an `"IN"` entry
with none of the keys `"flatrate"`, `"buy"`, `"rent"`. -/
def providersExclude (c : Candidate) : Prop :=
  c.provResp = RResp.err ∨
    ∃ pd, c.provResp = RResp.ok pd ∧
      (pd.results = none ∨
        (∃ rs, pd.results = some rs ∧ rs.lookup "IN" = none) ∨
        ∃ rs ip, pd.results = some rs ∧ rs.lookup "IN" = some ip ∧
          ip.flatrate = false ∧ ip.buy = false ∧ ip.rent = false)

/-- Catalog projection as the specification words it (amended for Python
truthiness): a cache element whose external identifier or title is absent or
empty is omitted; otherwise the entry carries the identifier as `id`, the
fixed type tag, the title as `name`, the overview (empty when absent), the
release date (empty when absent), and poster/background URLs obtained by
concatenating the fixed image-host base with a width segment and the raw path
fragment, null exactly when the path fragment is absent or empty. -/
def catalogEntrySpec (m : MovieRec) : Option StremioMeta :=
  if truthyStr m.imdb_id = false ∨ truthyStr m.title = false then none
  else some
    { id := m.imdb_id.getD ""
      type := "movie"
      name := m.title.getD ""
      poster :=
        if truthyStr m.poster_path then
          some ("https://image.tmdb.org/t/p/" ++ "w500" ++ m.poster_path.getD "")
        else none
      description := m.overview.getD ""
      releaseInfo := m.release_date.getD ""
      background :=
        if truthyStr m.backdrop_path then
          some ("https://image.tmdb.org/t/p/" ++ "w780" ++ m.backdrop_path.getD "")
        else none }

/-! ### Lemmas about deduplication -/

lemma dedupAux_sublist (ms : List MovieRec) :
    ∀ seen, List.Sublist (dedupAux seen ms) ms := by
  induction ms with
  | nil => intro seen; simp [dedupAux]
  | cons m rest ih =>
    intro seen
    cases h : m.imdb_id with
    | none =>
      simpa only [dedupAux, h] using (ih seen).cons m
    | some iid =>
      by_cases hk : (iid != "" && !(seen.contains iid)) = true
      · simpa only [dedupAux, h, hk, if_pos] using (ih (iid :: seen)).cons₂ m
      · simpa only [dedupAux, h, if_neg hk] using (ih seen).cons m

lemma dedupAux_mem (ms : List MovieRec) :
    ∀ seen, ∀ m' ∈ dedupAux seen ms,
      (∃ s, m'.imdb_id = some s ∧ s ≠ "" ∧ s ∉ seen) ∧
        ms.find? (fun x => x.imdb_id == m'.imdb_id) = some m' := by
  induction ms with
  | nil => intro seen m' hm'; simp [dedupAux] at hm'
  | cons m rest ih =>
    intro seen m' hm'
    cases h : m.imdb_id with
    | none =>
      simp only [dedupAux, h] at hm'
      obtain ⟨⟨s, hs, hne, hnotin⟩, hfind⟩ := ih seen m' hm'
      refine ⟨⟨s, hs, hne, hnotin⟩, ?_⟩
      rw [List.find?_cons_of_neg _ (by simp [h, hs]), hfind]
    | some iid =>
      by_cases hk : (iid != "" && !(seen.contains iid)) = true
      · simp only [dedupAux, h, hk, if_pos, List.mem_cons] at hm'
        rcases hm' with rfl | hm'
        · have hk' : iid ≠ "" ∧ iid ∉ seen := by simpa using hk
          refine ⟨⟨iid, h, hk'.1, hk'.2⟩, ?_⟩
          exact List.find?_cons_of_pos _ (by simp [h])
        · obtain ⟨⟨s, hs, hne, hnotin⟩, hfind⟩ := ih (iid :: seen) m' hm'
          have hsne : s ≠ iid := fun e => hnotin (e ▸ List.mem_cons_self _ _)
          refine ⟨⟨s, hs, hne, fun hin => hnotin (List.mem_cons_of_mem _ hin)⟩, ?_⟩
          rw [List.find?_cons_of_neg _ (by simp [h, hs]; exact fun e => hsne e.symm), hfind]
      · simp only [dedupAux, h, if_neg hk] at hm'
        obtain ⟨⟨s, hs, hne, hnotin⟩, hfind⟩ := ih seen m' hm'
        have hiid : iid = "" ∨ iid ∈ seen := by
          by_cases h1 : iid = ""
          · exact .inl h1
          · refine .inr (by_contra fun h2 => hk ?_)
            simp [h1, h2]
        have hsne : iid ≠ s := by
          rcases hiid with rfl | hin
          · exact fun e => hne e.symm
          · exact fun e => hnotin (e ▸ hin)
        refine ⟨⟨s, hs, hne, hnotin⟩, ?_⟩
        rw [List.find?_cons_of_neg _ (by simp [h, hs]; exact hsne), hfind]

lemma dedupAux_ids_nodup (ms : List MovieRec) :
    ∀ seen, ((dedupAux seen ms).map MovieRec.imdb_id).Nodup := by
  induction ms with
  | nil => intro seen; simp [dedupAux]
  | cons m rest ih =>
    intro seen
    cases h : m.imdb_id with
    | none => simpa only [dedupAux, h] using ih seen
    | some iid =>
      by_cases hk : (iid != "" && !(seen.contains iid)) = true
      · simp only [dedupAux, h, hk, if_pos, List.map_cons, List.nodup_cons]
        refine ⟨?_, ih (iid :: seen)⟩
        intro hmem
        obtain ⟨m', hm', hid⟩ := List.mem_map.mp hmem
        obtain ⟨⟨s, hs, _, hnotin⟩, _⟩ := dedupAux_mem rest (iid :: seen) m' hm'
        rw [hid] at hs
        obtain rfl := Option.some.inj hs
        exact hnotin (List.mem_cons_self _ _)
      · simpa only [dedupAux, h, if_neg hk] using ih seen

lemma dedupAux_complete (ms : List MovieRec) :
    ∀ seen, ∀ m ∈ ms, ∀ s, m.imdb_id = some s → s ≠ "" → s ∉ seen →
      ∃ m', m' ∈ dedupAux seen ms ∧ m'.imdb_id = some s := by
  induction ms with
  | nil => intro seen m hm; simp at hm
  | cons hd rest ih =>
    intro seen m hm s hms hne hnotin
    cases hh : hd.imdb_id with
    | none =>
      rcases List.mem_cons.mp hm with rfl | hm'
      · rw [hh] at hms; exact absurd hms (by simp)
      · obtain ⟨m', h1, h2⟩ := ih seen m hm' s hms hne hnotin
        exact ⟨m', by simp only [dedupAux, hh]; exact h1, h2⟩
    | some iid =>
      by_cases hk : (iid != "" && !(seen.contains iid)) = true
      · by_cases hsi : s = iid
        · subst hsi
          refine ⟨hd, ?_, hh⟩
          simp only [dedupAux, hh, hk, if_pos]
          exact List.mem_cons_self _ _
        · rcases List.mem_cons.mp hm with rfl | hm'
          · rw [hh] at hms; exact absurd (Option.some.inj hms).symm hsi
          · obtain ⟨m', h1, h2⟩ := ih (iid :: seen) m hm' s hms hne
              (by simp [hsi, hnotin])
            refine ⟨m', ?_, h2⟩
            simp only [dedupAux, hh, hk, if_pos]
            exact List.mem_cons_of_mem _ h1
      · rcases List.mem_cons.mp hm with rfl | hm'
        · rw [hh] at hms
          obtain rfl := Option.some.inj hms
          exact absurd (by simp [hne, hnotin] :
            (iid != "" && !(seen.contains iid)) = true) hk
        · obtain ⟨m', h1, h2⟩ := ih seen m hm' s hms hne hnotin
          exact ⟨m', by simp only [dedupAux, hh, if_neg hk]; exact h1, h2⟩

/-! ### Lemmas about candidate and page processing -/

lemma processCandidate_shape (acc : List MovieRec) (c : Candidate) :
    processCandidate acc c = ([], acc) ∨
      (processCandidate acc c).2 = acc ∨
      ∃ iid, (processCandidate acc c).2 = acc ++ [{ c.movie with imdb_id := some iid }] ∧
        iid ≠ "" ∧ strStartsWith iid "tt" = true ∧ truthyStr c.movie.title = true := by
  unfold processCandidate
  split
  · exact .inl rfl
  next h1 =>
    have ht : truthyStr c.movie.title = true := by
      rcases Bool.or_eq_false_iff.mp (Bool.eq_false_iff.mpr h1) with ⟨_, h⟩
      simpa using h
    split
    · exact .inr (.inl rfl)
    split
    · exact .inr (.inl rfl)
    split
    · exact .inr (.inl rfl)
    split
    · exact .inr (.inl rfl)
    split
    · exact .inr (.inl rfl)
    split
    · exact .inr (.inl rfl)
    rename_i iid heq
    split
    next hi =>
      have hi' : iid ≠ "" ∧ strStartsWith iid "tt" = true := by simpa using hi
      exact .inr (.inr ⟨iid, rfl, hi'.1, hi'.2, ht⟩)
    next => exact .inr (.inl rfl)

lemma processCandidate_mem (acc : List MovieRec) (c : Candidate) :
    ∀ m ∈ (processCandidate acc c).2, m ∈ acc ∨ acceptedMovie m := by
  intro m hm
  rcases processCandidate_shape acc c with h | h | ⟨iid, h, hne, hpre, ht⟩
  · rw [h] at hm; exact .inl hm
  · rw [h] at hm; exact .inl hm
  · rw [h] at hm
    rcases List.mem_append.mp hm with h' | h'
    · exact .inl h'
    · rcases List.mem_singleton.mp h' with rfl
      refine .inr ⟨⟨iid, rfl, hne, hpre⟩, ?_⟩
      rcases ht' : c.movie.title with _ | t
      · rw [ht'] at ht; simp [truthyStr] at ht
      · rw [ht'] at ht
        exact ⟨t, rfl, by simpa [truthyStr] using ht⟩

lemma processPage_mem (cs : List Candidate) :
    ∀ acc, ∀ m ∈ (processPage acc cs).2, m ∈ acc ∨ acceptedMovie m := by
  induction cs with
  | nil => intro acc m hm; exact .inl hm
  | cons c cs ih =>
    intro acc m hm
    have hm' : m ∈ (processPage (processCandidate acc c).2 cs).2 := hm
    rcases ih _ m hm' with h | h
    · exact processCandidate_mem acc c m h
    · exact .inr h

lemma fetchT_mem (env : Nat → PageResp) :
    ∀ fuel page acc, ∀ m ∈ (fetchT env page fuel acc).2, m ∈ acc ∨ acceptedMovie m := by
  intro fuel
  induction fuel with
  | zero => intro page acc m hm; exact .inl hm
  | succ fuel ih =>
    intro page acc m hm
    unfold fetchT at hm
    cases h : env page with
    | err => rw [h] at hm; exact .inl hm
    | ok cs =>
      cases cs with
      | nil => rw [h] at hm; exact .inl hm
      | cons c cs =>
        rw [h] at hm
        dsimp only at hm
        rcases ih (page + 1) _ m hm with h' | h'
        · exact processPage_mem (c :: cs) acc m h'
        · exact .inr h'

/-! ### Lemmas about candidate skipping -/

lemma processCandidate_falsy (acc : List MovieRec) (c : Candidate)
    (h : truthyInt c.movie.id = false ∨ truthyStr c.movie.title = false) :
    processCandidate acc c = ([], acc) := by
  unfold processCandidate
  rcases h with h | h <;> rw [if_pos (by simp [h])]

lemma processCandidate_prov_skip (acc : List MovieRec) (c : Candidate)
    (hid : truthyInt c.movie.id = true) (ht : truthyStr c.movie.title = true)
    (h : providersExclude c) :
    processCandidate acc c = ([Lookup.providers], acc) := by
  unfold processCandidate
  rw [if_neg (by simp [hid, ht])]
  rcases h with h | ⟨pd, hpd, hrest⟩
  · rw [h]
  · rw [hpd]
    dsimp only
    rcases hrest with h | ⟨rs, hrs, hlk⟩ | ⟨rs, ip, hrs, hlk, hf, hb, hr⟩
    · rw [h]
    · rw [hrs]
      dsimp only
      rw [hlk]
    · rw [hrs]
      dsimp only
      rw [hlk]
      dsimp only
      rw [if_pos (by simp [hf, hb, hr])]

lemma processCandidate_ext_err (acc : List MovieRec) (c : Candidate)
    (h : c.extResp = RResp.err) :
    (processCandidate acc c).2 = acc := by
  rcases c with ⟨mv, prov, ext⟩
  obtain rfl : ext = RResp.err := h
  unfold processCandidate
  split
  · rfl
  split
  · rfl
  split
  · rfl
  split
  · rfl
  split
  · rfl
  rfl

lemma processPage_cons (acc : List MovieRec) (c : Candidate) (cs : List Candidate) :
    (processPage acc (c :: cs)).2 = (processPage (processCandidate acc c).2 cs).2 := rfl

/-! ### Lemmas about the pagination loop -/

lemma fetchT_pages_bound (env : Nat → PageResp) :
    ∀ fuel page acc,
      (fetchT env page fuel acc).1.length ≤ fuel ∧
        ∀ p ∈ (fetchT env page fuel acc).1, page ≤ p ∧ p < page + fuel := by
  intro fuel
  induction fuel with
  | zero => intro page acc; simp [fetchT]
  | succ fuel ih =>
    intro page acc
    unfold fetchT
    cases h : env page with
    | err =>
      refine ⟨by simp, ?_⟩
      intro p hp
      have : p = page := by simpa using hp
      subst this
      omega
    | ok cs =>
      cases cs with
      | nil =>
        refine ⟨by simp, ?_⟩
        intro p hp
        have : p = page := by simpa using hp
        subst this
        omega
      | cons c cs =>
        dsimp only
        obtain ⟨ihl, ihm⟩ := ih (page + 1) (processPage acc (c :: cs)).2
        refine ⟨by simpa using Nat.succ_le_succ ihl, ?_⟩
        intro p hp
        rcases List.mem_cons.mp hp with rfl | hp'
        · omega
        · have := ihm p hp'
          omega

lemma fetchT_stop (env : Nat → PageResp) :
    ∀ j page fuel acc, j < fuel →
      (∀ p ∈ List.range' page j, isGoodPage (env p) = true) →
      stopsPage (env (page + j)) = true →
      fetchT env page fuel acc =
        (List.range' page (j + 1), (List.range' page j).foldl (pageStep env) acc) := by
  intro j
  induction j with
  | zero =>
    intro page fuel acc hf _ hstop
    obtain ⟨fuel', rfl⟩ : ∃ f, fuel = f + 1 := ⟨fuel - 1, by omega⟩
    rw [Nat.add_zero] at hstop
    unfold fetchT
    cases h : env page with
    | err => simp
    | ok cs =>
      cases cs with
      | nil => simp
      | cons c cs =>
        rw [h] at hstop
        simp [stopsPage] at hstop
  | succ j ihj =>
    intro page fuel acc hf hgood hstop
    obtain ⟨fuel', rfl⟩ : ∃ f, fuel = f + 1 := ⟨fuel - 1, by omega⟩
    have hgpage : isGoodPage (env page) = true := by
      refine hgood page ?_
      simp only [List.mem_range'_1]
      omega
    unfold fetchT
    cases h : env page with
    | err =>
      rw [h] at hgpage
      simp [isGoodPage] at hgpage
    | ok cs =>
      cases cs with
      | nil =>
        rw [h] at hgpage
        simp [isGoodPage] at hgpage
      | cons c cs =>
        dsimp only
        rw [ihj (page + 1) fuel' (processPage acc (c :: cs)).2 (by omega) ?_ ?_]
        · simp only [Prod.mk.injEq]
          constructor
          · exact (List.range'_succ page (j + 1) 1).symm
          · rw [List.range'_succ, List.foldl_cons]
            simp [pageStep, candsOf, h]
        · intro p hp
          refine hgood p ?_
          rw [List.range'_succ]
          exact List.mem_cons_of_mem _ hp
        · have : page + 1 + j = page + (j + 1) := by omega
          rw [this]
          exact hstop

lemma fetchT_all_good (env : Nat → PageResp) :
    ∀ fuel page acc,
      (∀ p ∈ List.range' page fuel, isGoodPage (env p) = true) →
      fetchT env page fuel acc =
        (List.range' page fuel, (List.range' page fuel).foldl (pageStep env) acc) := by
  intro fuel
  induction fuel with
  | zero => intro page acc _; simp [fetchT]
  | succ fuel ih =>
    intro page acc hgood
    have hgpage : isGoodPage (env page) = true := by
      refine hgood page ?_
      simp only [List.mem_range'_1]
      omega
    unfold fetchT
    cases h : env page with
    | err =>
      rw [h] at hgpage
      simp [isGoodPage] at hgpage
    | ok cs =>
      cases cs with
      | nil =>
        rw [h] at hgpage
        simp [isGoodPage] at hgpage
      | cons c cs =>
        dsimp only
        rw [ih (page + 1) (processPage acc (c :: cs)).2 ?_]
        · simp only [Prod.mk.injEq]
          constructor
          · exact (List.range'_succ page fuel 1).symm
          · rw [List.range'_succ, List.foldl_cons]
            simp [pageStep, candsOf, h]
        · intro p hp
          refine hgood p ?_
          rw [List.range'_succ]
          exact List.mem_cons_of_mem _ hp

/-! ### Lemmas about the catalog projection -/

lemma image_base_w500 :
    ("https://image.tmdb.org/t/p/" ++ "w500" : String) = "https://image.tmdb.org/t/p/w500" := rfl

lemma image_base_w780 :
    ("https://image.tmdb.org/t/p/" ++ "w780" : String) = "https://image.tmdb.org/t/p/w780" := rfl

lemma to_stremio_meta_eq_spec (m : MovieRec) :
    to_stremio_meta m = catalogEntrySpec m := by
  cases hi : m.imdb_id with
  | none => simp [to_stremio_meta, catalogEntrySpec, truthyStr, hi]
  | some iid =>
    cases ht : m.title with
    | none => simp [to_stremio_meta, catalogEntrySpec, truthyStr, hi, ht]
    | some t =>
      by_cases hii : iid = ""
      · subst hii
        simp [to_stremio_meta, catalogEntrySpec, truthyStr, hi, ht]
      · by_cases htt : t = ""
        · subst htt
          simp [to_stremio_meta, catalogEntrySpec, truthyStr, hi, ht]
        · simp only [to_stremio_meta, catalogEntrySpec, hi, ht]
          rw [if_neg (by simp [hii, htt]), if_neg (by simp [truthyStr, hii, htt])]
          congr 1
          refine StremioMeta.ext (by simp [hi]) rfl (by simp [ht]) ?_ rfl rfl ?_
          · cases hp : m.poster_path with
            | none => simp [truthyStr, hp]
            | some p =>
              by_cases hpe : p = ""
              · subst hpe
                simp [truthyStr, hp]
              · simp [truthyStr, hp, hpe, image_base_w500]
          · cases hb : m.backdrop_path with
            | none => simp [truthyStr, hb]
            | some p =>
              by_cases hpe : p = ""
              · subst hpe
                simp [truthyStr, hb]
              · simp [truthyStr, hb, hpe, image_base_w780]

lemma to_stremio_meta_isSome (m : MovieRec)
    (h1 : truthyStr m.imdb_id = true) (h2 : truthyStr m.title = true) :
    (to_stremio_meta m).isSome = true := by
  cases hi : m.imdb_id with
  | none => rw [hi] at h1; simp [truthyStr] at h1
  | some iid =>
    cases ht : m.title with
    | none => rw [ht] at h2; simp [truthyStr] at h2
    | some t =>
      rw [hi] at h1
      rw [ht] at h2
      have hii : iid ≠ "" := by simpa [truthyStr] using h1
      have htt : t ≠ "" := by simpa [truthyStr] using h2
      simp only [to_stremio_meta, hi, ht]
      rw [if_neg (by simp [hii, htt])]
      rfl

lemma to_stremio_meta_some_fields (m : MovieRec) (e : StremioMeta)
    (h : to_stremio_meta m = some e) :
    m.imdb_id = some e.id ∧ m.title = some e.name := by
  rw [to_stremio_meta_eq_spec] at h
  unfold catalogEntrySpec at h
  split at h
  · exact absurd h (by simp)
  next hc =>
    obtain rfl := Option.some.inj h
    have h1 : truthyStr m.imdb_id = true := by
      rcases Bool.eq_false_or_eq_true (truthyStr m.imdb_id) with ht' | hf
      · exact ht'
      · exact absurd (Or.inl hf) hc
    have h2 : truthyStr m.title = true := by
      rcases Bool.eq_false_or_eq_true (truthyStr m.title) with ht' | hf
      · exact ht'
      · exact absurd (Or.inr hf) hc
    constructor
    · cases hi : m.imdb_id with
      | none => rw [hi] at h1; simp [truthyStr] at h1
      | some iid => simp [hi]
    · cases ht2 : m.title with
      | none => rw [ht2] at h2; simp [truthyStr] at h2
      | some t => simp [ht2]

lemma to_stremio_meta_none_iff (m : MovieRec) :
    to_stremio_meta m = none ↔
      truthyStr m.imdb_id = false ∨ truthyStr m.title = false := by
  cases hi : m.imdb_id with
  | none => simp [to_stremio_meta, truthyStr, hi]
  | some iid =>
    cases ht : m.title with
    | none => simp [to_stremio_meta, truthyStr, hi, ht]
    | some t =>
      simp only [to_stremio_meta, hi, ht, truthyStr]
      by_cases hii : iid = ""
      · subst hii
        simp
      · by_cases htt : t = ""
        · subst htt
          simp
        · rw [if_neg (by simp [hii, htt])]
          simp [hii, htt]

lemma catalog_metas_length :
    ∀ cache : List MovieRec,
      (∀ m ∈ cache, truthyStr m.imdb_id = true ∧ truthyStr m.title = true) →
      (cache.filterMap to_stremio_meta).length = cache.length := by
  intro cache
  induction cache with
  | nil => intro _; rfl
  | cons m rest ih =>
    intro h
    obtain ⟨h1, h2⟩ := h m (List.mem_cons_self _ _)
    obtain ⟨e, he⟩ := Option.isSome_iff_exists.mp (to_stremio_meta_isSome m h1 h2)
    simp [List.filterMap_cons, he, ih fun m' hm' => h m' (List.mem_cons_of_mem _ hm')]

/-! ### Sample data for witnesses -/

/-- A candidate that passes every check and resolves to IMDb id `tt1000000`. -/
def candA1 : Candidate :=
  ⟨⟨some 10, some "Title A", some "Plot", some "2024-01-01", some "/a.jpg", some "/b.jpg", none⟩,
    RResp.ok ⟨some [("IN", ⟨false, false, true⟩)]⟩,
    RResp.ok ⟨some "tt1000000"⟩⟩

/-- Environment whose page 1 holds `candA1` and whose page 2 is empty. -/
def env1 : Nat → PageResp :=
  fun p => if p = 1 then PageResp.ok [candA1] else PageResp.ok []

/-- The movie installed into the cache by a run under `env1`. -/
def mvC1 : MovieRec :=
  ⟨some 10, some "Title A", some "Plot", some "2024-01-01", some "/a.jpg", some "/b.jpg",
    some "tt1000000"⟩

/-- Movies sharing an IMDb id, for exercising deduplication. -/
def mv2a : MovieRec := ⟨some 20, some "Dup", none, none, none, none, some "tt0000020"⟩

/-- A movie with a distinct IMDb id. -/
def mv2b : MovieRec := ⟨some 21, some "Other", none, none, none, none, some "tt0000021"⟩

/-- A later duplicate of `mv2a`'s IMDb id with different payload. -/
def mv2c : MovieRec := ⟨some 22, some "Dup again", none, none, none, none, some "tt0000020"⟩

/-- A list containing a repeated external identifier. -/
def msC2 : List MovieRec := [mv2a, mv2b, mv2c]

/-- Environment with two good pages followed by a request error on page 3. -/
def env3 : Nat → PageResp :=
  fun p => if p ≤ 2 then PageResp.ok [candA1] else PageResp.err

/-- A candidate whose watch-providers request raises. -/
def cand4 : Candidate :=
  ⟨⟨some 40, some "Title D", none, none, none, none, none⟩, RResp.err,
    RResp.ok ⟨some "tt0000040"⟩⟩

/-- Environment that fails on every page request. -/
def env4 : Nat → PageResp := fun _ => PageResp.err

/-- A candidate whose providers response decodes but has no `"results"` key. -/
def cand5 : Candidate :=
  ⟨⟨some 50, some "Title E", none, none, none, none, none⟩, RResp.ok ⟨none⟩,
    RResp.ok ⟨some "tt0000050"⟩⟩

/-- A cache element with a present-but-empty poster path fragment. -/
def mvC6 : MovieRec := ⟨some 1, some "A", none, none, some "", none, some "tt0000001"⟩

/-- The catalog entry produced for `mvC6`. -/
def metaC6 : StremioMeta := ⟨"tt0000001", "movie", "A", none, "", "", none⟩

/-- A candidate skipped by the falsy-id check before any lookup. -/
def cand8 : Candidate :=
  ⟨⟨some 0, some "Skipped", none, none, none, none, none⟩, RResp.err, RResp.err⟩

/-- Environment whose every page is non-empty (the loop never stops early). -/
def env8 : Nat → PageResp := fun _ => PageResp.ok [cand8]

/-- A movie satisfying the cache invariant. -/
def mv9 : MovieRec := ⟨some 2, some "B", none, none, none, none, some "tt0000002"⟩

/-- The catalog entry produced for `mv9`. -/
def meta9 : StremioMeta := ⟨"tt0000002", "movie", "B", none, "", "", none⟩

/-- A candidate with numeric id `0` whose lookups would all succeed. -/
def cand10 : Candidate :=
  ⟨⟨some 0, some "Zero", none, none, none, none, none⟩,
    RResp.ok ⟨some [("IN", ⟨true, false, false⟩)]⟩,
    RResp.ok ⟨some "tt0000010"⟩⟩

/-! ### Claims -/

/-- C1: after every refresh run — whether pagination ran to page 300, stopped
on an empty page, or stopped on a request error — every element of the
installed Movie Cache has a non-empty external identifier starting with
`"tt"` and a non-empty title, and no two elements of the cache have the same
external identifier. -/
theorem claim_C1 (env : Nat → PageResp) :
    (∀ m ∈ fetch_and_cache_movies env,
        (∃ s, m.imdb_id = some s ∧ s ≠ "" ∧ strStartsWith s "tt" = true) ∧
          ∃ t, m.title = some t ∧ t ≠ "") ∧
      ((fetch_and_cache_movies env).map MovieRec.imdb_id).Nodup := by
  constructor
  · intro m hm
    have hm' : m ∈ (fetchT env 1 300 []).2 :=
      (dedupAux_sublist ((fetchT env 1 300 []).2) []).subset hm
    rcases fetchT_mem env 300 1 [] m hm' with h | h
    · simp at h
    · exact h
  · exact dedupAux_ids_nodup ((fetchT env 1 300 []).2) []

/-- Witness for C1: the run under `env1` installs `mvC1`, and the invariant
instantiates there. -/
theorem claim_C1_witness :
    (∃ s, mvC1.imdb_id = some s ∧ s ≠ "" ∧ strStartsWith s "tt" = true) ∧
      ∃ t, mvC1.title = some t ∧ t ≠ "" :=
  (claim_C1 env1).1 mvC1 (by decide)

/-- C2: the deduplication step yields a list with at most one entry per
external identifier (`Nodup` of the ids), keeps exactly the first occurrence
of each identifier (`find?` recovers each kept entry), preserves relative
order (sublist of the input), and loses no identifier that any
identifier-carrying input entry had. -/
theorem claim_C2 (ms : List MovieRec) :
    List.Sublist (dedup ms) ms ∧
      ((dedup ms).map MovieRec.imdb_id).Nodup ∧
      (∀ m' ∈ dedup ms, ms.find? (fun x => x.imdb_id == m'.imdb_id) = some m') ∧
      ∀ m ∈ ms, truthyStr m.imdb_id = true →
        ∃ m' ∈ dedup ms, m'.imdb_id = m.imdb_id := by
  refine ⟨dedupAux_sublist ms [], dedupAux_ids_nodup ms [], ?_, ?_⟩
  · intro m' hm'
    exact (dedupAux_mem ms [] m' hm').2
  · intro m hm htr
    cases hi : m.imdb_id with
    | none => rw [hi] at htr; simp [truthyStr] at htr
    | some s =>
      rw [hi] at htr
      have hs : s ≠ "" := by simpa [truthyStr] using htr
      obtain ⟨m', h1, h2⟩ := dedupAux_complete ms [] m hm s hi hs (by simp)
      exact ⟨m', h1, h2⟩

/-- Witness for C2: on the list `msC2` with a repeated identifier, the kept
entry for the duplicate is its first occurrence and no identifier is lost. -/
theorem claim_C2_witness :
    msC2.find? (fun x => x.imdb_id == mv2b.imdb_id) = some mv2b ∧
      ∃ m' ∈ dedup msC2, m'.imdb_id = mv2c.imdb_id :=
  ⟨(claim_C2 msC2).2.2.1 mv2b (by decide), (claim_C2 msC2).2.2.2 mv2c (by decide) (by decide)⟩

/-- C3: the pagination loop stops early exactly when a page yields an empty
result list or the page request fails: if pages `1..k-1` are good and page
`k` stops (error or empty), the requested pages are exactly `1..k` (no retry)
and the result installed is the deduplication of the candidates accumulated
from pages `1..k-1`; if no page in `1..300` stops the loop, all of `1..300`
are requested. -/
theorem claim_C3 (env : Nat → PageResp) :
    (∀ k, 1 ≤ k → k ≤ 300 →
        (∀ p ∈ List.range' 1 (k - 1), isGoodPage (env p) = true) →
        stopsPage (env k) = true →
        queried_pages env = List.range' 1 k ∧
          fetch_and_cache_movies env = dedup (accumPages env (k - 1))) ∧
      ((∀ p ∈ List.range' 1 300, isGoodPage (env p) = true) →
        queried_pages env = List.range' 1 300 ∧
          fetch_and_cache_movies env = dedup (accumPages env 300)) := by
  constructor
  · intro k hk1 hk2 hgood hstop
    have hs : stopsPage (env (1 + (k - 1))) = true := by
      have hk : 1 + (k - 1) = k := by omega
      rw [hk]
      exact hstop
    have heq := fetchT_stop env (k - 1) 1 300 [] (by omega) hgood hs
    have hk1' : k - 1 + 1 = k := by omega
    constructor
    · unfold queried_pages
      rw [heq, hk1']
    · unfold fetch_and_cache_movies accumPages
      rw [heq]
  · intro hgood
    have heq := fetchT_all_good env 300 1 [] hgood
    constructor
    · unfold queried_pages
      rw [heq]
    · unfold fetch_and_cache_movies accumPages
      rw [heq]

/-- Witness for C3: under `env3` (pages 1 and 2 good, page 3 errors) the run
requests exactly pages 1, 2, 3 and installs the deduplicated accumulation of
the first two pages. -/
theorem claim_C3_witness :
    queried_pages env3 = List.range' 1 3 ∧
      fetch_and_cache_movies env3 = dedup (accumPages env3 2) :=
  (claim_C3 env3).1 3 (by decide) (by decide) (by decide) (by decide)

/-- C4: failures never propagate out of `fetch_and_cache_movies`: a
candidate whose providers or external-ids request raises contributes nothing
and the page loop continues with the remaining candidates; a failed page
request stops pagination, returning the pages requested so far and the
accumulated candidates; and the run always installs the deduplicated
accumulation. -/
theorem claim_C4 :
    (∀ (acc : List MovieRec) (c : Candidate) (rest : List Candidate),
        c.provResp = RResp.err ∨ c.extResp = RResp.err →
        (processPage acc (c :: rest)).2 = (processPage acc rest).2) ∧
      (∀ (env : Nat → PageResp) (page fuel : Nat) (acc : List MovieRec),
        env page = PageResp.err → fetchT env page (fuel + 1) acc = ([page], acc)) ∧
      ∀ env : Nat → PageResp,
        fetch_and_cache_movies env = dedup ((fetchT env 1 300 []).2) := by
  refine ⟨?_, ?_, fun _ => rfl⟩
  · intro acc c rest h
    rw [processPage_cons]
    rcases h with h | h
    · have hskip : (processCandidate acc c).2 = acc := by
        by_cases hf : (!(truthyInt c.movie.id) || !(truthyStr c.movie.title)) = true
        · unfold processCandidate
          rw [if_pos hf]
        · unfold processCandidate
          rw [if_neg hf, h]
      rw [hskip]
    · rw [processCandidate_ext_err acc c h]
  · intro env page fuel acc h
    unfold fetchT
    rw [h]

/-- Witness for C4: a candidate with a raising providers request is skipped,
and an environment erroring on page 1 yields an empty accumulation with page
1 as the only request. -/
theorem claim_C4_witness :
    (processPage [] [cand4]).2 = (processPage [] []).2 ∧
      fetchT env4 1 300 [] = ([1], []) :=
  ⟨claim_C4.1 [] cand4 [] (Or.inl rfl), claim_C4.2.1 env4 1 299 [] rfl⟩

/-- C5: a candidate reaching the watch-providers step is excluded from the
accumulated list when the providers response has no `"results"` key or no
`"IN"` entry, or the `"IN"` entry has none of `"flatrate"`, `"buy"`,
`"rent"`, or the lookup errors; only that candidate is dropped and the loop
continues with the next candidate of the same page. -/
theorem claim_C5 (acc : List MovieRec) (c : Candidate) (rest : List Candidate)
    (hid : truthyInt c.movie.id = true) (ht : truthyStr c.movie.title = true)
    (h : providersExclude c) :
    (processCandidate acc c).2 = acc ∧
      (processPage acc (c :: rest)).2 = (processPage acc rest).2 := by
  have hskip := processCandidate_prov_skip acc c hid ht h
  constructor
  · rw [hskip]
  · rw [processPage_cons, hskip]

/-- Witness for C5: `cand5`, whose providers response lacks the `"results"`
key, is excluded while the page continues. -/
theorem claim_C5_witness :
    (processCandidate [] cand5).2 = [] ∧
      (processPage [] [cand5]).2 = (processPage [] []).2 :=
  claim_C5 [] cand5 [] (by decide) (by decide)
    (Or.inr ⟨⟨none⟩, rfl, Or.inl rfl⟩)

/-- Counterexample to C6 as stated: `mvC6` has a present (non-absent) poster
path fragment `""`, yet its catalog entry's poster is null, so poster is not
null "exactly when the source path fragment is absent". -/
theorem claim_C6_counterexample :
    mvC6.poster_path = some "" ∧ mvC6.poster_path ≠ none ∧
      to_stremio_meta mvC6 = some metaC6 ∧ metaC6.poster = none := by
  decide

/-- C6 (amended): the catalog endpoint computes its output as the in-order
projection of the cache, one entry per element with fields id, type
`"movie"`, name, poster, description, releaseInfo, background, where poster
and background are the fixed image-host base concatenated with a width
segment and the raw path fragment, null exactly when the source path
fragment is absent or empty, and any element whose identifier or title is
absent or empty is silently omitted. -/
theorem claim_C6_amended (cache : List MovieRec) :
    (catalog cache).metas = cache.filterMap catalogEntrySpec := by
  have h : to_stremio_meta = catalogEntrySpec := funext to_stremio_meta_eq_spec
  unfold catalog
  rw [h]

/-- C7: the catalog endpoint never fails outward: for every cache state it
returns a metas object, and with the empty cache it returns the empty metas
sequence. -/
theorem claim_C7 :
    (∀ cache : List MovieRec, ∃ ms, catalog cache = { metas := ms }) ∧
      catalog [] = { metas := [] } :=
  ⟨fun cache => ⟨cache.filterMap to_stremio_meta, rfl⟩, rfl⟩

/-- C8: every refresh run requests at most 300 discover pages, all of them
numbered within 1..300, and when no page is empty and no request fails, the
pages requested are exactly 1..300 — the loop terminates regardless. -/
theorem claim_C8 (env : Nat → PageResp) :
    (queried_pages env).length ≤ 300 ∧
      (∀ p ∈ queried_pages env, 1 ≤ p ∧ p ≤ 300) ∧
      ((∀ p ∈ List.range' 1 300, isGoodPage (env p) = true) →
        queried_pages env = List.range' 1 300) := by
  obtain ⟨h1, h2⟩ := fetchT_pages_bound env 300 1 []
  refine ⟨h1, ?_, ?_⟩
  · intro p hp
    have := h2 p hp
    omega
  · intro hgood
    unfold queried_pages
    rw [fetchT_all_good env 300 1 [] hgood]

set_option maxRecDepth 10000 in
/-- Witness for C8: under the never-stopping environment `env8`, page 1 is
within bounds and the requested pages are exactly 1..300. -/
theorem claim_C8_witness :
    (1 ≤ 1 ∧ 1 ≤ 300) ∧ queried_pages env8 = List.range' 1 300 :=
  ⟨(claim_C8 env8).2.1 1 (by decide), (claim_C8 env8).2.2 (by decide)⟩

/-- C9: `to_stremio_meta` returns `None` exactly when `imdb_id` or `title`
is absent or falsy; otherwise the entry's id is the `imdb_id` and its name
the `title`; consequently, on a cache satisfying the Movie Cache invariant
(truthy identifier and title) the catalog omits nothing: one entry per cache
element. -/
theorem claim_C9 :
    (∀ m : MovieRec,
        (to_stremio_meta m = none ↔
          truthyStr m.imdb_id = false ∨ truthyStr m.title = false) ∧
          ∀ e, to_stremio_meta m = some e →
            m.imdb_id = some e.id ∧ m.title = some e.name) ∧
      ∀ cache : List MovieRec,
        (∀ m ∈ cache, truthyStr m.imdb_id = true ∧ truthyStr m.title = true) →
        (catalog cache).metas.length = cache.length := by
  refine ⟨fun m => ⟨to_stremio_meta_none_iff m, fun e he => to_stremio_meta_some_fields m e he⟩, ?_⟩
  intro cache h
  exact catalog_metas_length cache h

/-- Witness for C9: `mv9` projects to `meta9` carrying its id and title, and
the singleton cache `[mv9]` loses no element. -/
theorem claim_C9_witness :
    (mv9.imdb_id = some meta9.id ∧ mv9.title = some meta9.name) ∧
      (catalog [mv9]).metas.length = [mv9].length :=
  ⟨(claim_C9.1 mv9).2 meta9 (by decide), claim_C9.2 [mv9] (by decide)⟩

/-- C10: a discover candidate is skipped by the identifier-and-title check
whenever either field is falsy (not merely absent) — in particular numeric
id `0` or empty title — with the accumulator unchanged and no enrichment
lookup issued. -/
theorem claim_C10 (acc : List MovieRec) (c : Candidate)
    (h : truthyInt c.movie.id = false ∨ truthyStr c.movie.title = false) :
    processCandidate acc c = ([], acc) :=
  processCandidate_falsy acc c h

/-- Witness for C10: `cand10` has numeric id `0` and succeeding lookups, yet
is skipped with no lookup issued. -/
theorem claim_C10_witness :
    processCandidate [] cand10 = ([], []) :=
  claim_C10 [] cand10 (Or.inl (by decide))

end StremMal
